import Mathlib

/-!
Verification development for the SunnyOS IDE sources: shallow embeddings of the
probe response model (`AideProbeResponseModel`, `AideProbeModel`), the streamed
edit pipeline of `AideAgentSessionProvider`, the CodeStory authentication
provider, the diffstat rendering helpers and the semantic-search command, with
theorems settling the behavioural claims about them.
-/

namespace SunnyOS

/-! ### JavaScript collection semantics used by the sources -/

/-- JS `Array.prototype.findIndex`, before the `-1` encoding: the first index at
which the predicate holds. -/
def findIdxO {α : Type} (p : α → Bool) : List α → Option Nat
  | [] => none
  | a :: as => if p a then some 0 else (findIdxO p as).map (· + 1)

/-- JS `Array.prototype.findIndex`: `-1` when no element matches. -/
def jsFindIndex {α : Type} (p : α → Bool) (l : List α) : Int :=
  match findIdxO p l with
  | some i => (i : Int)
  | none => -1

/-- JS array indexing `a[i]` with an integer index: `undefined` (`none`) when the
index is negative or out of range. -/
def jsIndex {α : Type} (l : List α) (i : Int) : Option α :=
  if i < 0 then none else l.get? i.toNat

/-- JS `Array.prototype.splice(i, 1)`: a negative `i` counts from the end of the
array (clamped at 0), a too-large `i` deletes nothing. -/
def jsSpliceDeleteOne {α : Type} (l : List α) (i : Int) : List α :=
  let actualIdx : Nat := if i < 0 then ((l.length : Int) + i).toNat else min i.toNat l.length
  l.take actualIdx ++ l.drop (actualIdx + 1)

/-- JS `Map.prototype.get`, on a map represented as its entries in insertion
order. -/
def lookupAssoc {α : Type} : List (String × α) → String → Option α
  | [], _ => none
  | p :: ps, k => if p.1 = k then some p.2 else lookupAssoc ps k

/-- JS `Map.prototype.set`: overwrite the existing entry in place, else append a
new entry. -/
def setAssoc {α : Type} : List (String × α) → String → α → List (String × α)
  | [], k, v => [(k, v)]
  | p :: ps, k, v => if p.1 = k then (k, v) :: ps else p :: setAssoc ps k v

/-- JS `Map.prototype.delete`. -/
def removeAssoc {α : Type} : List (String × α) → String → List (String × α)
  | [], _ => []
  | p :: ps, k => if p.1 = k then ps else p :: removeAssoc ps k

/-! ### The probe response model (`AideProbeResponseModel`, unnamed/part_000) -/

/-- The `reference` of a breakdown or code-edit progress item: a symbol
identified by the uri of its file and its name. URIs are modelled by their
string rendering (`uri.toString()`). -/
structure SymbolReference where
  uri : String
  name : String
  deriving DecidableEq, Repr, Inhabited

/-- `IAideProbeBreakdownContent`: a per-symbol record with optional markdown
fields (an `IMarkdownString` is modelled by its `value`). -/
structure Breakdown where
  reference : SymbolReference
  query : Option String
  reason : Option String
  response : Option String
  deriving DecidableEq, Repr, Inhabited

/-- The key used by the per-symbol maps of `AideProbeResponseModel`:
`reference.uri.toString() + ':' + reference.name`. -/
def SymbolReference.mapKey (r : SymbolReference) : String := r.uri ++ ":" ++ r.name

def Breakdown.mapKey (b : Breakdown) : String := b.reference.mapKey

/-- The guard `x && x.value.length > 0` applied to an optional markdown field. -/
def mdPresent : Option String → Bool
  | some s => decide (0 < s.length)
  | none => false

/-- The in-place field update `applyBreakdown` performs on the stored record when
a breakdown arrives for a symbol key that is already present: each of `query`,
`reason` and `response` is overwritten only when the incoming field is
non-empty. -/
def mergeBreakdown (r b : Breakdown) : Breakdown :=
  { r with
    query := if mdPresent b.query then b.query else r.query
    reason := if mdPresent b.reason then b.reason else r.reason
    response := if mdPresent b.response then b.response else r.response }

/-- `IAideProbeGoToDefinition`: a definition hint carrying the symbol uri and
name together with further payload that `applyGoToDefinition` never inspects
(modelled opaquely by one field). -/
structure GoToDefinition where
  uri : String
  name : String
  payload : String
  deriving DecidableEq, Repr, Inhabited

/-- `IAideProbeTextEditPreview`: reference plus payload never inspected by the
response model. -/
structure TextEditPreview where
  reference : SymbolReference
  payload : String
  deriving DecidableEq, Repr, Inhabited

/-- `IAideProbeTextEdit`: reference plus payload never inspected by the response
model. -/
structure ProbeTextEdit where
  reference : SymbolReference
  payload : String
  deriving DecidableEq, Repr, Inhabited

/-- State of `AideProbeResponseModel`. JS object aliasing matters for the
breakdowns: `_breakdownsBySymbol` and `_breakdowns` hold references to the same
record objects and `applyBreakdown` mutates them through the map reference, so
breakdown records live in a store (`bdStore`, addressed by position in creation
order) while the map (`bdBySymbol`) and the array (`bdOrder`) hold addresses.
Preview and code-edit objects are never mutated, so they are held by value. -/
structure ResponseState where
  result : Option String
  bdStore : List Breakdown
  bdBySymbol : List (String × Nat)
  bdOrder : List Nat
  goToDefinitions : List GoToDefinition
  previewBySymbol : List (String × List TextEditPreview)
  codeEditsPreview : List TextEditPreview
  codeEdits : List ProbeTextEdit
  deriving DecidableEq, Repr

/-- The state of a freshly constructed `AideProbeResponseModel`. -/
def emptyResponse : ResponseState :=
  { result := none, bdStore := [], bdBySymbol := [], bdOrder := []
    goToDefinitions := [], previewBySymbol := [], codeEditsPreview := [], codeEdits := [] }

/-- The `breakdowns` getter: the `_breakdowns` array, reading each record from
the store. -/
def ResponseState.breakdowns (s : ResponseState) : List Breakdown :=
  s.bdOrder.map (fun a => s.bdStore.getD a default)

/-- `AideProbeResponseModel.applyBreakdown`. When the symbol key is present the
record held by the map is updated field by field, then `findIndex` (comparing
`reference.name` and `reference.uri`) locates it in `_breakdowns` and the map
entry is written back at that index; otherwise the incoming breakdown is added
to both map and array. -/
def applyBreakdown (s : ResponseState) (b : Breakdown) : ResponseState :=
  match lookupAssoc s.bdBySymbol b.mapKey with
  | some addr =>
    let store1 := s.bdStore.set addr (mergeBreakdown (s.bdStore.getD addr default) b)
    let idx := findIdxO (fun a =>
      ((store1.getD a default).reference.name == b.reference.name) &&
      ((store1.getD a default).reference.uri == b.reference.uri)) s.bdOrder
    let order1 := match idx with
      | some i => s.bdOrder.set i addr
      | none => s.bdOrder
    { s with bdStore := store1, bdOrder := order1 }
  | none =>
    { s with
      bdStore := s.bdStore ++ [b]
      bdBySymbol := s.bdBySymbol ++ [(b.mapKey, s.bdStore.length)]
      bdOrder := s.bdOrder ++ [s.bdStore.length] }

/-- `AideProbeResponseModel.applyGoToDefinition`: return unchanged when a stored
definition with the same uri and name exists, else push. -/
def applyGoToDefinition (s : ResponseState) (g : GoToDefinition) : ResponseState :=
  if s.goToDefinitions.any (fun gtd => (gtd.uri == g.uri) && (gtd.name == g.name)) then s
  else { s with goToDefinitions := s.goToDefinitions ++ [g] }

/-- `AideProbeResponseModel.applyCodeEditPreview`: push into the per-symbol array
held by the map when the key exists (the exposed `_codeEditsPreview` array is
not touched in that case), else record the key and push the preview itself. -/
def applyCodeEditPreview (s : ResponseState) (p : TextEditPreview) : ResponseState :=
  match lookupAssoc s.previewBySymbol p.reference.mapKey with
  | some arr => { s with previewBySymbol := setAssoc s.previewBySymbol p.reference.mapKey (arr ++ [p]) }
  | none =>
    { s with
      previewBySymbol := s.previewBySymbol ++ [(p.reference.mapKey, [p])]
      codeEditsPreview := s.codeEditsPreview ++ [p] }

/-- `AideProbeResponseModel.applyCodeEdit`: drop the symbol key from the preview
map when present, then push the edit. -/
def applyCodeEdit (s : ResponseState) (e : ProbeTextEdit) : ResponseState :=
  let previews := if (lookupAssoc s.previewBySymbol e.reference.mapKey).isSome
    then removeAssoc s.previewBySymbol e.reference.mapKey
    else s.previewBySymbol
  { s with previewBySymbol := previews, codeEdits := s.codeEdits ++ [e] }

/-- `IAideProbeProgress`, discriminated by its `kind` field. -/
inductive ProbeProgress
  | markdownContent (content : String)
  | breakdown (b : Breakdown)
  | goToDefinition (g : GoToDefinition)
  | textEditPreview (p : TextEditPreview)
  | textEdit (e : ProbeTextEdit)
  deriving DecidableEq, Repr

/-- `AideProbeRequestModel`. -/
structure ProbeRequest where
  sessionId : String
  message : String
  editMode : Bool
  deriving DecidableEq, Repr

/-- State of `AideProbeModel`; `didChangeFires` counts `_onDidChange.fire()`
calls. -/
structure ProbeModelState where
  sessionId : String
  request : Option ProbeRequest
  response : Option ResponseState
  isComplete : Bool
  isTailing : Bool
  didChangeFires : Nat
  deriving DecidableEq, Repr

/-- `AideProbeModel.acceptResponseProgress`; the `throw` on a missing request is
modelled with `Except.error`, and a missing response model is created empty. -/
def acceptResponseProgress (m : ProbeModelState) (p : ProbeProgress) : Except String ProbeModelState :=
  match m.request with
  | none => Except.error "Request not yet initialised"
  | some _ =>
    let r := m.response.getD emptyResponse
    let r1 := match p with
      | ProbeProgress.markdownContent c => { r with result := some c }
      | ProbeProgress.breakdown b => applyBreakdown r b
      | ProbeProgress.goToDefinition g => applyGoToDefinition r g
      | ProbeProgress.textEditPreview pv => applyCodeEditPreview r pv
      | ProbeProgress.textEdit e => applyCodeEdit r e
    Except.ok { m with response := some r1, didChangeFires := m.didChangeFires + 1 }

/-- The update behaviour of `applyBreakdown` on the exposed `breakdowns` list as
the claim states it, to be compared with the source embedding: an existing
symbol key is updated in place through `mergeBreakdown`, a new one is
appended. -/
def applyBreakdownSpec (l : List Breakdown) (b : Breakdown) : List Breakdown :=
  if l.any (fun r => r.mapKey == b.mapKey) then
    l.map (fun r => if r.mapKey == b.mapKey then mergeBreakdown r b else r)
  else l ++ [b]

/-- Run a sequence of `applyBreakdown` calls on a fresh response model. -/
def runBreakdowns (bs : List Breakdown) : ResponseState :=
  bs.foldl applyBreakdown emptyResponse

/-- The contents of `_breakdownsBySymbol` as determined by the store: the keys
of the records in creation order, each mapped to its record's address, starting
at address `i`. -/
def bySymbolFrom (i : Nat) : List Breakdown → List (String × Nat)
  | [] => []
  | r :: rs => (r.mapKey, i) :: bySymbolFrom (i + 1) rs

/-- Invariant of the breakdown bookkeeping of every reachable
`AideProbeResponseModel` state: the map pairs each key with its record's
address, the array lists all addresses in creation order, and the symbol keys of
the stored records are pairwise distinct. -/
def BdInv (s : ResponseState) : Prop :=
  s.bdBySymbol = bySymbolFrom 0 s.bdStore ∧
  s.bdOrder = List.range s.bdStore.length ∧
  (s.bdStore.map Breakdown.mapKey).Nodup

/-! ### The CodeStory authentication provider (unnamed/part_004) -/

/-- A stored `CodeStoryAuthenticationSession`; only the fields relevant to
session lookup and identity are modelled. -/
structure AuthSession where
  id : String
  accessToken : String
  accountId : String
  deriving DecidableEq, Repr

/-- `CodeStoryAuthProvider.getSessions`: read the secret stored under the
sessions key and JSON-parse it; the JSON parser is abstract. The stored string
goes through a JS truthiness check, so an empty string is treated like an
absent key. -/
def getSessions (parseSessions : String → List AuthSession) (stored : Option String) : List AuthSession :=
  match stored with
  | some s => if s ≠ "" then parseSessions s else []
  | none => []

/-- `CodeStoryAuthProvider.removeSession`, with the secret store modelled after
JSON parsing (JSON.parse and JSON.stringify are mutually inverse on session
lists). The first component is the session list written back to the store, the
second the session carried by the fired change event (`none` when no event is
fired). `sessions[sessionIdx]` and `sessions.splice(sessionIdx, 1)` receive the
raw `findIndex` result, which is `-1` when no session matches. -/
def removeSession (stored : Option (List AuthSession)) (sessionId : String) :
    Option (List AuthSession) × Option AuthSession :=
  match stored with
  | none => (none, none)
  | some sessions =>
    let sessionIdx := jsFindIndex (fun s => s.id == sessionId) sessions
    let session := jsIndex sessions sessionIdx
    let sessions1 := jsSpliceDeleteOne sessions sessionIdx
    (some sessions1, session)

/-! ### Diffstat rendering (aideCommandPalettePanel.ts) -/

/-- The `FileChanges` entry of the diffstat input. -/
structure FileChanges where
  added : Nat
  removed : Nat
  deriving DecidableEq, Repr

/-- `calculateDiffstat`. Entries are the raw strings the code produces; the
declared `DiffStat` type of the source admits only `'added'`, `'removed'` and
`'empty'`. -/
def calculateDiffstat (totalChanges linesAdded linesRemoved numberOfBoxes : Nat) : List String :=
  if totalChanges = 0 then List.replicate numberOfBoxes "emtpty"
  else
    let addRatio : Rat := (linesAdded : Rat) / (totalChanges : Rat)
    let delRatio : Rat := (linesRemoved : Rat) / (totalChanges : Rat)
    (List.range numberOfBoxes).map (fun i =>
      let threshold : Rat := ((i : Rat) + 1) / 5
      if addRatio > threshold then "added"
      else if delRatio > 1 - threshold then "removed"
      else "empty")

/-- `generateDiffstats`: map every file-changes entry to its five-box diffstat
(`calculateDiffstat` is called with its default `numberOfBoxes = 5`). -/
def generateDiffstats (fileChanges : List (String × FileChanges)) : List (String × List String) :=
  fileChanges.map (fun pc => (pc.1, calculateDiffstat (pc.2.added + pc.2.removed) pc.2.added pc.2.removed 5))

/-! ### The agent session provider (unnamed/part_001) -/

/-- Modelled from the spec: `Limiter` (imported from `server/applyEdits`, whose
source is not part of the repository snapshot) is the concurrency limiter the
spec describes as a "single-slot limiter"; its constructor argument is its slot
count. -/
structure Limiter where
  size : Nat
  deriving DecidableEq, Repr

/-- The `mode` of a `vscode.AideAgentRequest` as dispatched by
`generateResponse`. -/
inductive AgentMode
  | chat
  | edit
  | plan
  deriving DecidableEq, Repr

/-- The sidecar and chat-reporting calls `generateResponse` makes, keeping the
arguments relevant to concurrency limiting; the plan branch is summarised by a
single marker since it drives only plan requests. -/
inductive AgentCall
  | followupQuestion
  | reportFromStreamToSearchProgress
  | startAgentCodeEdit
  | reportAgentEventsToChat (editMode : Bool) (limiter : Limiter)
  | planFlow
  deriving DecidableEq, Repr

/-- The single `Limiter` field of `AideAgentSessionProvider`:
`private limiter = new Limiter(1)`. -/
def providerLimiter : Limiter := { size := 1 }

/-- The call structure of `AideAgentSessionProvider.generateResponse` by event
mode, parametrised by the provider's limiter field. -/
def generateResponseCalls (limiter : Limiter) (mode : AgentMode) : List AgentCall :=
  match mode with
  | AgentMode.chat => [AgentCall.followupQuestion, AgentCall.reportFromStreamToSearchProgress]
  | AgentMode.edit => [AgentCall.startAgentCodeEdit, AgentCall.reportAgentEventsToChat true limiter]
  | AgentMode.plan => [AgentCall.planFlow]

/-- A sidecar range, as carried by streamed edit requests. -/
structure SRange where
  startLine : Nat
  startCharacter : Nat
  endLine : Nat
  endCharacter : Nat
  deriving DecidableEq, Repr

/-- The `event` field of an `EditedCodeStreamingRequest`: `'Start'`, `'End'`, or
`{ Delta: text }`. -/
inductive EditStreamEvent
  | startEvent
  | endEvent
  | delta (text : String)
  deriving DecidableEq, Repr

/-- `EditedCodeStreamingRequest`. -/
structure EditedCodeStreamingRequest where
  apply_directly : Bool
  fs_file_path : String
  edit_request_id : String
  range : SRange
  event : EditStreamEvent
  deriving DecidableEq, Repr

/-- The `{ fs_file_path, success }` result of `provideEditStreamed`. -/
structure EditResult where
  fs_file_path : String
  success : Bool
  deriving DecidableEq, Repr

/-- Split a character stream on `'\n'`: the complete (newline-terminated)
segments in order, and the trailing segment after the last newline. -/
def drainChars : List Char → List (List Char) × List Char
  | [] => ([], [])
  | c :: cs =>
    let r := drainChars cs
    if c = '\n' then ([] :: r.1, r.2)
    else
      match r.1 with
      | [] => ([], c :: r.2)
      | l :: ls => ((c :: l) :: ls, r.2)

/-- Modelled from the spec: `AnswerSplitOnNewLineAccumulatorStreaming` (imported
from `chatState/convertStreamToMessage`, whose source is not part of the
repository snapshot) is the line accumulator that splits the incoming token
stream on newlines. `drainBuffer` is the effect of repeatedly calling `getLine`
until it returns null: the complete lines in arrival order, and the remaining
partial tail that stays buffered. -/
def drainBuffer (buffer : String) : List String × String :=
  ((drainChars buffer.data).1.map (fun l => String.mk l), String.mk (drainChars buffer.data).2)

/-- State of `AideAgentSessionProvider` as far as `provideEditStreamed` touches
it. `editsMap` maps each `edit_request_id` to the buffered tail of its line
accumulator; `processed` is the trace of `streamProcessor.processLine` calls
(modelled from the spec as the consumer of complete lines, keyed by the owning
request id); `cleaned` records `streamProcessor.cleanup` calls; `savedFiles`
records `workspace.save` calls; `files` are the openable workspace documents;
`log` records the tags of the `console.log` calls whose first argument is a
string literal. -/
structure ProviderState where
  openResponseStream : Bool
  files : List (String × String)
  editsMap : List (String × String)
  processed : List (String × String)
  cleaned : List String
  savedFiles : List String
  editCounter : Nat
  log : List String
  deriving DecidableEq, Repr

/-- `AideAgentSessionProvider.provideEditStreamed`. `none` models a thrown
`TypeError` (an `'End'` event for an unregistered `edit_request_id` dereferences
`undefined`). A `Delta` whose text is the empty string is falsy in JS, so it
falls through every branch of the event dispatch. -/
def provideEditStreamed (s : ProviderState) (request : EditedCodeStreamingRequest) :
    Option (ProviderState × EditResult) :=
  if !request.apply_directly && !s.openResponseStream then
    some ({ s with log := s.log ++ ["editing_streamed::no_open_response_stream"] },
      { fs_file_path := "", success := false })
  else
    match request.event with
    | EditStreamEvent.startEvent =>
      match lookupAssoc s.files request.fs_file_path with
      | none => some (s, { fs_file_path := "", success := false })
      | some _ =>
        some ({ s with
          editsMap := setAssoc s.editsMap request.edit_request_id ""
          log := s.log ++ ["editsStreamed::content", "editStreaming.start"] },
          { fs_file_path := "", success := true })
    | EditStreamEvent.endEvent =>
      match lookupAssoc s.editsMap request.edit_request_id with
      | none => none
      | some buffer =>
        let drained := drainBuffer buffer
        some ({ s with
          editsMap := removeAssoc s.editsMap request.edit_request_id
          processed := s.processed ++ drained.1.map (fun ln => (request.edit_request_id, ln))
          cleaned := s.cleaned ++ [request.edit_request_id]
          savedFiles := s.savedFiles ++ [request.fs_file_path]
          editCounter := s.editCounter + 1
          log := s.log ++ ["provideEditsStreamed::finished"] },
          { fs_file_path := "", success := true })
    | EditStreamEvent.delta text =>
      if text = "" then some (s, { fs_file_path := "", success := true })
      else
        match lookupAssoc s.editsMap request.edit_request_id with
        | none => some (s, { fs_file_path := "", success := true })
        | some buffer =>
          let drained := drainBuffer (buffer ++ text)
          some ({ s with
            editsMap := setAssoc s.editsMap request.edit_request_id drained.2
            processed := s.processed ++ drained.1.map (fun ln => (request.edit_request_id, ln)) },
            { fs_file_path := "", success := true })

/-! ### The semantic search command (extensions/codestory/src/extension.ts) -/

/-- A repository reference (`new RepoRef(rootPath, RepoRefBackend.local)`). -/
structure RepoRef where
  path : String
  backend : String
  deriving DecidableEq, Repr

/-- The `codestory.semanticSearch` command handler: log, report telemetry, then
return the sidecar's semantic search results for the prompt and the current
repository unchanged. The result type of the sidecar call is kept abstract. -/
def semanticSearchHandler {α : Type} (getSemanticSearchResult : String → RepoRef → List α)
    (currentRepo : RepoRef) (prompt : String) : List String × List α :=
  (["[semanticSearch][extension] We are executing semantic search :" ++ prompt],
    getSemanticSearchResult prompt currentRepo)

/-! ### Concrete inputs used to exercise the theorems -/

def sessionA : AuthSession := { id := "a", accessToken := "tokenA", accountId := "userA" }

def sessionB : AuthSession := { id := "b", accessToken := "tokenB", accountId := "userB" }

def parseEx : String → List AuthSession := fun _ => [sessionA]

def gtdEx : GoToDefinition := { uri := "file:a.ts", name := "foo", payload := "hint" }

def gtdStateEx : ResponseState := { emptyResponse with goToDefinitions := [gtdEx] }

def breakdownEx : Breakdown :=
  { reference := { uri := "file:a.ts", name := "foo" }, query := some "q", reason := none, response := none }

def breakdownEx2 : Breakdown :=
  { reference := { uri := "file:b.ts", name := "bar" }, query := none, reason := none, response := some "r" }

def breakdownEx3 : Breakdown :=
  { reference := { uri := "file:a.ts", name := "foo" }, query := none, reason := some "because", response := none }

def probeModelEx : ProbeModelState :=
  { sessionId := "s", request := some { sessionId := "s", message := "m", editMode := false }
    response := none, isComplete := false, isTailing := false, didChangeFires := 0 }

def providerEx : ProviderState :=
  { openResponseStream := true, files := [("f.ts", "hello")], editsMap := [("id1", "abc")]
    processed := [], cleaned := [], savedFiles := [], editCounter := 0, log := [] }

def providerClosedEx : ProviderState :=
  { openResponseStream := false, files := [], editsMap := []
    processed := [], cleaned := [], savedFiles := [], editCounter := 0, log := [] }

def requestDropEx : EditedCodeStreamingRequest :=
  { apply_directly := false, fs_file_path := "f.ts", edit_request_id := "id1"
    range := { startLine := 0, startCharacter := 0, endLine := 0, endCharacter := 0 }
    event := EditStreamEvent.delta "x" }

def rngEx : SRange := { startLine := 0, startCharacter := 0, endLine := 0, endCharacter := 0 }

/-! ### Theorems -/

/-- Claim C10: the `codestory.semanticSearch` command is pure forwarding: for
every prompt it returns exactly the result list produced by the sidecar's
`getSemanticSearchResult` for that prompt and the current repository reference,
with no transformation, filtering or reordering (the result type is abstract, so
the handler cannot even inspect the elements). -/
theorem semanticSearch_pure_forwarding {α : Type} (getSemanticSearchResult : String → RepoRef → List α)
    (currentRepo : RepoRef) (prompt : String) :
    (semanticSearchHandler getSemanticSearchResult currentRepo prompt).2 =
      getSemanticSearchResult prompt currentRepo := rfl

/-- Claim C9: `getSessions` is a thin read over host secret storage: it returns
exactly the parsed session list stored under the sessions secret key, and the
empty list when nothing is stored under that key. -/
theorem getSessions_thin_read :
    (∀ parseSessions, getSessions parseSessions none = []) ∧
    (∀ parseSessions stored, stored ≠ "" →
      getSessions parseSessions (some stored) = parseSessions stored) := by
  constructor
  · intro p
    rfl
  · intro p stored h
    simp [getSessions, h]

theorem getSessions_thin_read_witness :
    getSessions parseEx none = [] ∧ getSessions parseEx (some "[]") = parseEx "[]" :=
  ⟨getSessions_thin_read.1 parseEx, getSessions_thin_read.2 parseEx "[]" (by decide)⟩

/-- Claim C5 (code bug in `removeSession`): with sessions `a` and `b` stored and
a sessionId matching neither, `findIndex` returns `-1`, `splice(-1, 1)` removes
the **last** stored session, and no change event fires (`sessions[-1]` is
`undefined`). The claim that the stored list is left unchanged is violated. -/
theorem removeSession_unknown_id_drops_last :
    ([sessionA, sessionB].all (fun s => s.id != "missing")) = true ∧
    removeSession (some [sessionA, sessionB]) "missing" = (some [sessionA], none) := by
  decide

/-- Claim C6 (code bug in `calculateDiffstat`): a file-changes entry with
`added = 0` and `removed = 0` is mapped to five copies of the misspelled string
`'emtpty'`, not `'empty'` as the declared `DiffStat` type requires. -/
theorem generateDiffstats_zero_changes_typo :
    generateDiffstats [("/src/main.ts", { added := 0, removed := 0 })] =
      [("/src/main.ts", ["emtpty", "emtpty", "emtpty", "emtpty", "emtpty"])] ∧
    "emtpty" ≠ "empty" := by
  decide

/-- Claim C8: the provider's only concurrency-limiting primitive is its single
`Limiter` field, constructed with capacity 1, and that limiter is the one handed
to `reportAgentEventsToChat` for agent edit sessions (no other call of
`generateResponse` receives any limiter). -/
theorem limiter_single_slot :
    providerLimiter.size = 1 ∧
    generateResponseCalls providerLimiter AgentMode.edit =
      [AgentCall.startAgentCodeEdit, AgentCall.reportAgentEventsToChat true providerLimiter] ∧
    ∀ mode editMode lim,
      AgentCall.reportAgentEventsToChat editMode lim ∈ generateResponseCalls providerLimiter mode →
      lim = providerLimiter := by
  refine ⟨rfl, rfl, ?_⟩
  intro mode editMode lim hmem
  cases mode <;> simp [generateResponseCalls] at hmem
  exact hmem.2

theorem limiter_single_slot_witness :
    providerLimiter = providerLimiter ∧ providerLimiter.size = 1 :=
  ⟨limiter_single_slot.2.2 AgentMode.edit true providerLimiter (by simp [generateResponseCalls]),
    limiter_single_slot.1⟩

/-- Claim C3: a streamed edit request with `apply_directly` false while no
response stream is open is dropped: the result is `{ fs_file_path: '', success:
false }`, the condition is logged, and nothing else in the provider state (in
particular neither the edits map nor any document) changes. -/
theorem provideEditStreamed_drop_without_stream (s : ProviderState)
    (request : EditedCodeStreamingRequest)
    (h1 : request.apply_directly = false) (h2 : s.openResponseStream = false) :
    provideEditStreamed s request =
      some ({ s with log := s.log ++ ["editing_streamed::no_open_response_stream"] },
        { fs_file_path := "", success := false }) := by
  simp [provideEditStreamed, h1, h2]

theorem provideEditStreamed_drop_without_stream_witness :
    provideEditStreamed providerClosedEx requestDropEx =
      some ({ providerClosedEx with log := providerClosedEx.log ++ ["editing_streamed::no_open_response_stream"] },
        { fs_file_path := "", success := false }) :=
  provideEditStreamed_drop_without_stream providerClosedEx requestDropEx rfl rfl

/-- Claim C7: `applyGoToDefinition` is idempotent with respect to the
`(uri, name)` of its argument: when some stored definition already carries the
same uri and name the whole state is returned unchanged, and a definition with a
new `(uri, name)` is appended. -/
theorem applyGoToDefinition_idempotent (s : ResponseState) (g : GoToDefinition) :
    ((∃ e ∈ s.goToDefinitions, e.uri = g.uri ∧ e.name = g.name) →
      applyGoToDefinition s g = s) ∧
    ((∀ e ∈ s.goToDefinitions, ¬(e.uri = g.uri ∧ e.name = g.name)) →
      (applyGoToDefinition s g).goToDefinitions = s.goToDefinitions ++ [g]) := by
  constructor
  · intro h
    obtain ⟨e, he, h1, h2⟩ := h
    have hany : s.goToDefinitions.any (fun gtd => (gtd.uri == g.uri) && (gtd.name == g.name)) = true := by
      rw [List.any_eq_true]
      exact ⟨e, he, by simp [h1, h2]⟩
    simp [applyGoToDefinition, hany]
  · intro h
    have hany : s.goToDefinitions.any (fun gtd => (gtd.uri == g.uri) && (gtd.name == g.name)) = false := by
      rw [List.any_eq_false]
      intro e he
      have := h e he
      simp only [Bool.and_eq_true, beq_iff_eq]
      tauto
    simp [applyGoToDefinition, hany]

theorem applyGoToDefinition_idempotent_witness :
    applyGoToDefinition gtdStateEx gtdEx = gtdStateEx ∧
    (applyGoToDefinition emptyResponse gtdEx).goToDefinitions =
      emptyResponse.goToDefinitions ++ [gtdEx] :=
  ⟨(applyGoToDefinition_idempotent gtdStateEx gtdEx).1
      ⟨gtdEx, by simp [gtdStateEx], rfl, rfl⟩,
    (applyGoToDefinition_idempotent emptyResponse gtdEx).2
      (by simp [emptyResponse])⟩

/-- `Map.set` with the value already held under the key leaves the map
unchanged. -/
theorem setAssoc_lookup_self {α : Type} (l : List (String × α)) (k : String) (v : α)
    (h : lookupAssoc l k = some v) : setAssoc l k v = l := by
  induction l with
  | nil => simp [lookupAssoc] at h
  | cons p ps ih =>
    obtain ⟨p1, p2⟩ := p
    by_cases hp : p1 = k
    · simp [lookupAssoc, hp] at h
      simp [setAssoc, hp, h]
    · simp only [lookupAssoc, hp, if_false] at h
      simp [setAssoc, hp, ih h]

/-- Claim C1: dispatch of `provideEditStreamed` over a streamed edit request
whose guard passes. A `Start` event registers a fresh (empty) line accumulator
and stream processor under the request's `edit_request_id`; a `Delta` event
appends its text to that accumulator and feeds every complete accumulated line,
in arrival order, to the stream processor; an `End` event drains the remaining
buffered lines through the stream processor exactly once, then runs cleanup,
saves the file, and removes the `edit_request_id` entry from the edits map. The
`Delta` case assumes the stored buffer holds no complete line, which is true of
every reachable buffer because each `Delta` drains the accumulator. -/
theorem provideEditStreamed_stream_protocol :
    (∀ (s : ProviderState) (path id fileText : String) (rng : SRange) (ad : Bool),
      (ad = true ∨ s.openResponseStream = true) →
      lookupAssoc s.files path = some fileText →
      provideEditStreamed s
          { apply_directly := ad, fs_file_path := path, edit_request_id := id
            range := rng, event := EditStreamEvent.startEvent } =
        some ({ s with
          editsMap := setAssoc s.editsMap id ""
          log := s.log ++ ["editsStreamed::content", "editStreaming.start"] },
          { fs_file_path := "", success := true })) ∧
    (∀ (s : ProviderState) (path id text buffer : String) (rng : SRange) (ad : Bool),
      (ad = true ∨ s.openResponseStream = true) →
      lookupAssoc s.editsMap id = some buffer →
      drainBuffer buffer = ([], buffer) →
      provideEditStreamed s
          { apply_directly := ad, fs_file_path := path, edit_request_id := id
            range := rng, event := EditStreamEvent.delta text } =
        some ({ s with
          editsMap := setAssoc s.editsMap id (drainBuffer (buffer ++ text)).2
          processed := s.processed ++ (drainBuffer (buffer ++ text)).1.map (fun ln => (id, ln)) },
          { fs_file_path := "", success := true })) ∧
    (∀ (s : ProviderState) (path id buffer : String) (rng : SRange) (ad : Bool),
      (ad = true ∨ s.openResponseStream = true) →
      lookupAssoc s.editsMap id = some buffer →
      provideEditStreamed s
          { apply_directly := ad, fs_file_path := path, edit_request_id := id
            range := rng, event := EditStreamEvent.endEvent } =
        some ({ s with
          editsMap := removeAssoc s.editsMap id
          processed := s.processed ++ (drainBuffer buffer).1.map (fun ln => (id, ln))
          cleaned := s.cleaned ++ [id]
          savedFiles := s.savedFiles ++ [path]
          editCounter := s.editCounter + 1
          log := s.log ++ ["provideEditsStreamed::finished"] },
          { fs_file_path := "", success := true })) := by
  refine ⟨?_, ?_, ?_⟩
  · intro s path id fileText rng ad hguard hfile
    have hg : (!ad && !s.openResponseStream) = false := by
      rcases hguard with h | h <;> simp [h]
    simp [provideEditStreamed, hg, hfile]
  · intro s path id text buffer rng ad hguard hlook hnl
    have hg : (!ad && !s.openResponseStream) = false := by
      rcases hguard with h | h <;> simp [h]
    by_cases ht : text = ""
    · subst ht
      have hb : buffer ++ "" = buffer := by simp
      rw [hb]
      simp [provideEditStreamed, hg, hnl, setAssoc_lookup_self _ _ _ hlook]
    · simp [provideEditStreamed, hg, ht, hlook]
  · intro s path id buffer rng ad hguard hlook
    have hg : (!ad && !s.openResponseStream) = false := by
      rcases hguard with h | h <;> simp [h]
    simp [provideEditStreamed, hg, hlook]

theorem provideEditStreamed_stream_protocol_witness :
    provideEditStreamed providerEx
        { apply_directly := false, fs_file_path := "f.ts", edit_request_id := "id2"
          range := rngEx, event := EditStreamEvent.startEvent } =
      some ({ providerEx with
        editsMap := setAssoc providerEx.editsMap "id2" ""
        log := providerEx.log ++ ["editsStreamed::content", "editStreaming.start"] },
        { fs_file_path := "", success := true }) ∧
    provideEditStreamed providerEx
        { apply_directly := false, fs_file_path := "f.ts", edit_request_id := "id1"
          range := rngEx, event := EditStreamEvent.delta "de\nf" } =
      some ({ providerEx with
        editsMap := setAssoc providerEx.editsMap "id1" (drainBuffer ("abc" ++ "de\nf")).2
        processed := providerEx.processed ++ (drainBuffer ("abc" ++ "de\nf")).1.map (fun ln => ("id1", ln)) },
        { fs_file_path := "", success := true }) ∧
    provideEditStreamed providerEx
        { apply_directly := false, fs_file_path := "g.ts", edit_request_id := "id1"
          range := rngEx, event := EditStreamEvent.endEvent } =
      some ({ providerEx with
        editsMap := removeAssoc providerEx.editsMap "id1"
        processed := providerEx.processed ++ (drainBuffer "abc").1.map (fun ln => ("id1", ln))
        cleaned := providerEx.cleaned ++ ["id1"]
        savedFiles := providerEx.savedFiles ++ ["g.ts"]
        editCounter := providerEx.editCounter + 1
        log := providerEx.log ++ ["provideEditsStreamed::finished"] },
        { fs_file_path := "", success := true }) :=
  ⟨provideEditStreamed_stream_protocol.1 providerEx "f.ts" "id2" "hello" rngEx false
      (Or.inr rfl) (by decide),
    provideEditStreamed_stream_protocol.2.1 providerEx "f.ts" "id1" "de\nf" "abc" rngEx false
      (Or.inr rfl) (by decide) (by decide),
    provideEditStreamed_stream_protocol.2.2 providerEx "g.ts" "id1" "abc" rngEx false
      (Or.inr rfl) (by decide)⟩

/-- `applyBreakdown` touches only the breakdown bookkeeping of the response
state. -/
theorem applyBreakdown_preserves (s : ResponseState) (b : Breakdown) :
    (applyBreakdown s b).goToDefinitions = s.goToDefinitions ∧
    (applyBreakdown s b).codeEditsPreview = s.codeEditsPreview ∧
    (applyBreakdown s b).codeEdits = s.codeEdits ∧
    (applyBreakdown s b).result = s.result := by
  unfold applyBreakdown
  cases lookupAssoc s.bdBySymbol b.mapKey <;> simp

/-- `applyGoToDefinition` touches only the go-to-definition list. -/
theorem applyGoToDefinition_preserves (s : ResponseState) (g : GoToDefinition) :
    (applyGoToDefinition s g).breakdowns = s.breakdowns ∧
    (applyGoToDefinition s g).codeEditsPreview = s.codeEditsPreview ∧
    (applyGoToDefinition s g).codeEdits = s.codeEdits ∧
    (applyGoToDefinition s g).result = s.result := by
  unfold applyGoToDefinition
  split <;> simp [ResponseState.breakdowns]

/-- `applyCodeEditPreview` touches only the preview bookkeeping. -/
theorem applyCodeEditPreview_preserves (s : ResponseState) (pv : TextEditPreview) :
    (applyCodeEditPreview s pv).breakdowns = s.breakdowns ∧
    (applyCodeEditPreview s pv).goToDefinitions = s.goToDefinitions ∧
    (applyCodeEditPreview s pv).codeEdits = s.codeEdits ∧
    (applyCodeEditPreview s pv).result = s.result := by
  unfold applyCodeEditPreview
  cases lookupAssoc s.previewBySymbol pv.reference.mapKey <;> simp [ResponseState.breakdowns]

/-- `applyCodeEdit` touches only the code-edit list and the internal preview
map; the exposed `codeEditsPreview` array is untouched. -/
theorem applyCodeEdit_preserves (s : ResponseState) (e : ProbeTextEdit) :
    (applyCodeEdit s e).breakdowns = s.breakdowns ∧
    (applyCodeEdit s e).goToDefinitions = s.goToDefinitions ∧
    (applyCodeEdit s e).codeEditsPreview = s.codeEditsPreview ∧
    (applyCodeEdit s e).result = s.result := by
  unfold applyCodeEdit
  simp [ResponseState.breakdowns]

/-- Claim C4: with a request already initialised, `acceptResponseProgress`
accepts every progress item, routes it by kind to exactly one response
collection — `breakdown` to the breakdowns, `goToDefinition` to the
go-to-definitions, `textEdit` to the code edits, `textEditPreview` to the
code-edit previews, and `markdownContent` replacing the result — leaving every
other exposed collection unchanged, and fires `onDidChange` once per item. -/
theorem acceptResponseProgress_routing (m : ProbeModelState) (p : ProbeProgress)
    (h : m.request.isSome = true) :
    ∃ m1, acceptResponseProgress m p = Except.ok m1 ∧
      m1.didChangeFires = m.didChangeFires + 1 ∧
      (∀ c, p = ProbeProgress.markdownContent c →
        m1.response = some { (m.response.getD emptyResponse) with result := some c }) ∧
      (∀ b, p = ProbeProgress.breakdown b →
        m1.response = some (applyBreakdown (m.response.getD emptyResponse) b) ∧
        (applyBreakdown (m.response.getD emptyResponse) b).goToDefinitions =
          (m.response.getD emptyResponse).goToDefinitions ∧
        (applyBreakdown (m.response.getD emptyResponse) b).codeEditsPreview =
          (m.response.getD emptyResponse).codeEditsPreview ∧
        (applyBreakdown (m.response.getD emptyResponse) b).codeEdits =
          (m.response.getD emptyResponse).codeEdits ∧
        (applyBreakdown (m.response.getD emptyResponse) b).result =
          (m.response.getD emptyResponse).result) ∧
      (∀ g, p = ProbeProgress.goToDefinition g →
        m1.response = some (applyGoToDefinition (m.response.getD emptyResponse) g) ∧
        (applyGoToDefinition (m.response.getD emptyResponse) g).breakdowns =
          (m.response.getD emptyResponse).breakdowns ∧
        (applyGoToDefinition (m.response.getD emptyResponse) g).codeEditsPreview =
          (m.response.getD emptyResponse).codeEditsPreview ∧
        (applyGoToDefinition (m.response.getD emptyResponse) g).codeEdits =
          (m.response.getD emptyResponse).codeEdits ∧
        (applyGoToDefinition (m.response.getD emptyResponse) g).result =
          (m.response.getD emptyResponse).result) ∧
      (∀ pv, p = ProbeProgress.textEditPreview pv →
        m1.response = some (applyCodeEditPreview (m.response.getD emptyResponse) pv) ∧
        (applyCodeEditPreview (m.response.getD emptyResponse) pv).breakdowns =
          (m.response.getD emptyResponse).breakdowns ∧
        (applyCodeEditPreview (m.response.getD emptyResponse) pv).goToDefinitions =
          (m.response.getD emptyResponse).goToDefinitions ∧
        (applyCodeEditPreview (m.response.getD emptyResponse) pv).codeEdits =
          (m.response.getD emptyResponse).codeEdits ∧
        (applyCodeEditPreview (m.response.getD emptyResponse) pv).result =
          (m.response.getD emptyResponse).result) ∧
      (∀ e, p = ProbeProgress.textEdit e →
        m1.response = some (applyCodeEdit (m.response.getD emptyResponse) e) ∧
        (applyCodeEdit (m.response.getD emptyResponse) e).breakdowns =
          (m.response.getD emptyResponse).breakdowns ∧
        (applyCodeEdit (m.response.getD emptyResponse) e).goToDefinitions =
          (m.response.getD emptyResponse).goToDefinitions ∧
        (applyCodeEdit (m.response.getD emptyResponse) e).codeEditsPreview =
          (m.response.getD emptyResponse).codeEditsPreview ∧
        (applyCodeEdit (m.response.getD emptyResponse) e).result =
          (m.response.getD emptyResponse).result) := by
  cases hreq : m.request with
  | none => rw [hreq] at h; simp at h
  | some req =>
    cases p with
    | markdownContent c =>
      refine ⟨{ m with
          response := some { (m.response.getD emptyResponse) with result := some c }
          didChangeFires := m.didChangeFires + 1 }, by simp [acceptResponseProgress, hreq], rfl,
        ?_, ?_, ?_, ?_, ?_⟩ <;> intro x hx <;> simp at hx
      rw [hx]
    | breakdown b =>
      refine ⟨{ m with
          response := some (applyBreakdown (m.response.getD emptyResponse) b)
          didChangeFires := m.didChangeFires + 1 }, by simp [acceptResponseProgress, hreq], rfl,
        ?_, ?_, ?_, ?_, ?_⟩ <;> intro x hx <;> simp at hx
      rw [hx]
      exact ⟨rfl, applyBreakdown_preserves _ _⟩
    | goToDefinition g =>
      refine ⟨{ m with
          response := some (applyGoToDefinition (m.response.getD emptyResponse) g)
          didChangeFires := m.didChangeFires + 1 }, by simp [acceptResponseProgress, hreq], rfl,
        ?_, ?_, ?_, ?_, ?_⟩ <;> intro x hx <;> simp at hx
      rw [hx]
      exact ⟨rfl, applyGoToDefinition_preserves _ _⟩
    | textEditPreview pv =>
      refine ⟨{ m with
          response := some (applyCodeEditPreview (m.response.getD emptyResponse) pv)
          didChangeFires := m.didChangeFires + 1 }, by simp [acceptResponseProgress, hreq], rfl,
        ?_, ?_, ?_, ?_, ?_⟩ <;> intro x hx <;> simp at hx
      rw [hx]
      exact ⟨rfl, applyCodeEditPreview_preserves _ _⟩
    | textEdit e =>
      refine ⟨{ m with
          response := some (applyCodeEdit (m.response.getD emptyResponse) e)
          didChangeFires := m.didChangeFires + 1 }, by simp [acceptResponseProgress, hreq], rfl,
        ?_, ?_, ?_, ?_, ?_⟩ <;> intro x hx <;> simp at hx
      rw [hx]
      exact ⟨rfl, applyCodeEdit_preserves _ _⟩

theorem acceptResponseProgress_routing_witness :
    ∃ m1, acceptResponseProgress probeModelEx (ProbeProgress.breakdown breakdownEx) = Except.ok m1 ∧
      m1.didChangeFires = probeModelEx.didChangeFires + 1 := by
  obtain ⟨m1, h1, h2, _⟩ :=
    acceptResponseProgress_routing probeModelEx (ProbeProgress.breakdown breakdownEx) rfl
  exact ⟨m1, h1, h2⟩

/-- Breakdowns with equal reference name and uri have equal symbol keys. -/
theorem mapKey_eq_of (x y : Breakdown) (h1 : x.reference.name = y.reference.name)
    (h2 : x.reference.uri = y.reference.uri) : x.mapKey = y.mapKey := by
  simp [Breakdown.mapKey, SymbolReference.mapKey, h1, h2]

/-- Reading a list back through `getD` at the indices `0, ..., length - 1`
reproduces the list. -/
theorem getD_map_range {α : Type} [Inhabited α] (l : List α) :
    (List.range l.length).map (fun i => l.getD i default) = l := by
  induction l with
  | nil => rfl
  | cons a as ih =>
    rw [List.length_cons, List.range_succ_eq_map, List.map_cons, List.map_map]
    simp only [List.getD_cons_zero, Function.comp_def, List.getD_cons_succ]
    rw [ih]

/-- Soundness of `findIdxO`: a returned index is in range and satisfies the
predicate. -/
theorem findIdxO_some {α : Type} (p : α → Bool) (l : List α) (i : Nat)
    (h : findIdxO p l = some i) : ∃ hlt : i < l.length, p (l.get ⟨i, hlt⟩) = true := by
  induction l generalizing i with
  | nil => simp [findIdxO] at h
  | cons a as ih =>
    by_cases hp : p a
    · simp [findIdxO, hp] at h
      subst h
      exact ⟨by simp, by simpa using hp⟩
    · simp [findIdxO, hp] at h
      obtain ⟨j, hj, hji⟩ := h
      obtain ⟨hlt, hpj⟩ := ih j hj
      subst hji
      exact ⟨by simpa using Nat.succ_lt_succ hlt, by simpa using hpj⟩

/-- Writing back the value already stored at an index leaves the list
unchanged. -/
theorem set_get?_self {α : Type} (l : List α) (i : Nat) (v : α)
    (h : l[i]? = some v) : l.set i v = l := by
  induction l generalizing i with
  | nil => simp at h
  | cons a as ih =>
    cases i with
    | zero =>
      simp at h
      simp [h]
    | succ j =>
      simp at h
      simp [ih j h]

/-- `Map.get` on the by-symbol map misses exactly when no stored record carries
the key. -/
theorem lookupAssoc_bySymbolFrom_none (l : List Breakdown) (i : Nat) (key : String) :
    lookupAssoc (bySymbolFrom i l) key = none ↔ ∀ r ∈ l, r.mapKey ≠ key := by
  induction l generalizing i with
  | nil => simp [bySymbolFrom, lookupAssoc]
  | cons r rs ih =>
    by_cases hk : r.mapKey = key
    · refine ⟨fun h => by simp [bySymbolFrom, lookupAssoc, hk] at h,
        fun h => absurd hk (h r (by simp))⟩
    · simp [bySymbolFrom, lookupAssoc, hk, ih (i + 1)]

/-- `Map.get` on the by-symbol map hits an address shifted by the starting
address, owned by a record carrying the key. -/
theorem lookupAssoc_bySymbolFrom_some (l : List Breakdown) (i : Nat) (key : String) (a : Nat)
    (h : lookupAssoc (bySymbolFrom i l) key = some a) :
    ∃ j, ∃ hj : j < l.length, a = i + j ∧ (l.get ⟨j, hj⟩).mapKey = key := by
  induction l generalizing i with
  | nil => simp [bySymbolFrom, lookupAssoc] at h
  | cons r rs ih =>
    by_cases hk : r.mapKey = key
    · have hai : a = i := by
        simp [bySymbolFrom, lookupAssoc, hk] at h
        omega
      exact ⟨0, by simp, by omega, by simpa using hk⟩
    · simp only [bySymbolFrom, lookupAssoc, hk, if_false] at h
      obtain ⟨j, hj, haj, hkey⟩ := ih (i + 1) h
      exact ⟨j + 1, by simpa using Nat.succ_lt_succ hj, by omega, by simpa using hkey⟩

/-- Appending a record appends its key/address pair to the by-symbol map. -/
theorem bySymbolFrom_append (l : List Breakdown) (b : Breakdown) (i : Nat) :
    bySymbolFrom i (l ++ [b]) = bySymbolFrom i l ++ [(b.mapKey, i + l.length)] := by
  induction l generalizing i with
  | nil => simp [bySymbolFrom]
  | cons r rs ih =>
    have harith : i + 1 + rs.length = i + (rs.length + 1) := by omega
    simp [bySymbolFrom, ih (i + 1), harith]

/-- In-place record mutation that preserves the symbol key leaves the by-symbol
map unchanged. -/
theorem bySymbolFrom_set (l : List Breakdown) (j : Nat) (v : Breakdown) (i : Nat)
    (hkey : (l.getD j default).mapKey = v.mapKey) :
    bySymbolFrom i (l.set j v) = bySymbolFrom i l := by
  induction l generalizing i j with
  | nil => simp
  | cons r rs ih =>
    cases j with
    | zero =>
      simp only [List.getD_cons_zero] at hkey
      simp [bySymbolFrom, hkey]
    | succ jj =>
      simp only [List.getD_cons_succ] at hkey
      simp [bySymbolFrom, ih jj (i + 1) hkey]

/-- The in-place update map is the identity when no element carries the key. -/
theorem map_if_id (l : List Breakdown) (key : String) (b : Breakdown)
    (h : ∀ r ∈ l, r.mapKey ≠ key) :
    l.map (fun r => if r.mapKey == key then mergeBreakdown r b else r) = l := by
  induction l with
  | nil => rfl
  | cons r rs ih =>
    have h1 : (r.mapKey == key) = false := by simpa using h r (by simp)
    simp only [List.map_cons, h1, if_false, Bool.false_eq_true]
    rw [ih (fun x hx => h x (by simp [hx]))]

/-- With pairwise-distinct keys, updating every key-matching element is setting
the single matching position. -/
theorem map_merge_eq_set (l : List Breakdown) (b : Breakdown) (j : Nat) (hj : j < l.length)
    (hkey : (l.get ⟨j, hj⟩).mapKey = b.mapKey)
    (hnodup : (l.map Breakdown.mapKey).Nodup) :
    l.map (fun r => if r.mapKey == b.mapKey then mergeBreakdown r b else r) =
      l.set j (mergeBreakdown (l.get ⟨j, hj⟩) b) := by
  induction l generalizing j with
  | nil => simp at hj
  | cons r rs ih =>
    have hnd' := hnodup
    rw [List.map_cons, List.nodup_cons] at hnd'
    obtain ⟨hnotin, hnd2⟩ := hnd'
    cases j with
    | zero =>
      have h0 : (r.mapKey == b.mapKey) = true := by simpa using hkey
      have hrest : ∀ x ∈ rs, x.mapKey ≠ b.mapKey := by
        intro x hx hc
        apply hnotin
        rw [show r.mapKey = b.mapKey by simpa using hkey, ← hc]
        exact List.mem_map_of_mem Breakdown.mapKey hx
      simp only [List.map_cons, h0, if_true, List.set_cons_zero]
      rw [map_if_id rs b.mapKey b hrest]
      rfl
    | succ jj =>
      have hjj : jj < rs.length := by simpa using hj
      have hget : (rs.get ⟨jj, hjj⟩).mapKey = b.mapKey := by simpa using hkey
      have hr : (r.mapKey == b.mapKey) = false := by
        simp only [beq_eq_false_iff_ne, ne_eq]
        intro hc
        apply hnotin
        rw [hc, ← hget]
        exact List.mem_map_of_mem Breakdown.mapKey (List.get_mem rs _ _)
      simp only [List.map_cons, hr, if_false, List.set_cons_succ, Bool.false_eq_true]
      rw [ih jj hjj hget hnd2]
      rfl

/-- Positions of records with equal keys coincide when the keys are
pairwise distinct. -/
theorem nodup_keys_get_inj (l : List Breakdown) (hnodup : (l.map Breakdown.mapKey).Nodup)
    (i j : Nat) (hi : i < l.length) (hj : j < l.length)
    (h : (l.get ⟨i, hi⟩).mapKey = (l.get ⟨j, hj⟩).mapKey) : i = j := by
  have hmi : i < (l.map Breakdown.mapKey).length := by simpa using hi
  have hmj : j < (l.map Breakdown.mapKey).length := by simpa using hj
  have h2 : (l.map Breakdown.mapKey).get ⟨i, hmi⟩ = (l.map Breakdown.mapKey).get ⟨j, hmj⟩ := by
    simpa [List.get_map] using h
  have := (List.Nodup.get_inj_iff hnodup).mp h2
  simpa using this

/-- Under the bookkeeping invariant the `breakdowns` getter is the record
store. -/
theorem breakdowns_eq_store (s : ResponseState) (h : BdInv s) : s.breakdowns = s.bdStore := by
  rw [ResponseState.breakdowns, h.2.1, getD_map_range]

/-- `applyBreakdown` on a fresh symbol key appends to store, map and array. -/
theorem applyBreakdown_fresh (s : ResponseState) (b : Breakdown)
    (h : lookupAssoc s.bdBySymbol b.mapKey = none) :
    applyBreakdown s b =
      { s with
        bdStore := s.bdStore ++ [b]
        bdBySymbol := s.bdBySymbol ++ [(b.mapKey, s.bdStore.length)]
        bdOrder := s.bdOrder ++ [s.bdStore.length] } := by
  simp [applyBreakdown, h]

/-- `applyBreakdown` on a present symbol key mutates exactly the stored record
at the map's address; the array of addresses is unchanged. -/
theorem applyBreakdown_present (s : ResponseState) (b : Breakdown) (hInv : BdInv s) (j : Nat)
    (hl : lookupAssoc s.bdBySymbol b.mapKey = some j) :
    ∃ hj : j < s.bdStore.length,
      (s.bdStore.get ⟨j, hj⟩).mapKey = b.mapKey ∧
      applyBreakdown s b =
        { s with bdStore := s.bdStore.set j (mergeBreakdown (s.bdStore.get ⟨j, hj⟩) b) } := by
  obtain ⟨hsym, horder, hnodup⟩ := hInv
  have hl2 := hl
  rw [hsym] at hl2
  obtain ⟨j0, hj0, haj, hkey0⟩ := lookupAssoc_bySymbolFrom_some s.bdStore 0 b.mapKey j hl2
  have hjj : j = j0 := by omega
  subst hjj
  refine ⟨hj0, hkey0, ?_⟩
  have hgetD : s.bdStore.getD j default = s.bdStore.get ⟨j, hj0⟩ := by
    simp [List.getD_eq_getElem?_getD, List.getElem?_eq_getElem hj0]
  simp only [applyBreakdown, hl, hgetD]
  have horder1 :
      (match findIdxO (fun a =>
          (((s.bdStore.set j (mergeBreakdown (s.bdStore.get ⟨j, hj0⟩) b)).getD a default).reference.name == b.reference.name) &&
          (((s.bdStore.set j (mergeBreakdown (s.bdStore.get ⟨j, hj0⟩) b)).getD a default).reference.uri == b.reference.uri)) s.bdOrder with
        | some i => s.bdOrder.set i j
        | none => s.bdOrder) = s.bdOrder := by
    cases hidx : findIdxO (fun a =>
        (((s.bdStore.set j (mergeBreakdown (s.bdStore.get ⟨j, hj0⟩) b)).getD a default).reference.name == b.reference.name) &&
        (((s.bdStore.set j (mergeBreakdown (s.bdStore.get ⟨j, hj0⟩) b)).getD a default).reference.uri == b.reference.uri)) s.bdOrder with
    | none => rfl
    | some i =>
      obtain ⟨hlt, hPi⟩ := findIdxO_some _ _ _ hidx
      have hlen : s.bdOrder.length = s.bdStore.length := by rw [horder]; simp
      have hin : i < s.bdStore.length := by omega
      have hgeti : s.bdOrder.get ⟨i, hlt⟩ = i := by
        have := List.get_of_eq horder ⟨i, hlt⟩
        rw [this, List.get_range]
      rw [hgeti] at hPi
      have hij : i = j := by
        by_contra hne
        have hgset : (s.bdStore.set j (mergeBreakdown (s.bdStore.get ⟨j, hj0⟩) b)).getD i default =
            s.bdStore.get ⟨i, hin⟩ := by
          rw [List.getD_eq_getElem?_getD, List.getElem?_set_ne (by omega)]
          simp [List.getElem?_eq_getElem hin]
        rw [hgset] at hPi
        simp only [Bool.and_eq_true, beq_iff_eq] at hPi
        have hkeq : (s.bdStore.get ⟨i, hin⟩).mapKey = b.mapKey :=
          mapKey_eq_of _ b hPi.1 hPi.2
        have : i = j := nodup_keys_get_inj s.bdStore hnodup i j hin hj0 (by rw [hkeq, hkey0])
        exact hne this
      subst hij
      apply set_get?_self
      rw [horder]
      simp [List.getElem?_range hin]
  rw [horder1]

/-- The bookkeeping invariant is preserved by `applyBreakdown`, and on the
record store `applyBreakdown` acts as the claim-side update. -/
theorem BdInv_applyBreakdown (s : ResponseState) (b : Breakdown) (h : BdInv s) :
    BdInv (applyBreakdown s b) ∧
    (applyBreakdown s b).bdStore = applyBreakdownSpec s.bdStore b := by
  cases hl : lookupAssoc s.bdBySymbol b.mapKey with
  | none =>
    have hfresh : ∀ r ∈ s.bdStore, r.mapKey ≠ b.mapKey :=
      (lookupAssoc_bySymbolFrom_none s.bdStore 0 b.mapKey).mp (by rw [← h.1]; exact hl)
    rw [applyBreakdown_fresh s b hl]
    have hany : (s.bdStore.any (fun r => r.mapKey == b.mapKey)) = false := by
      rw [List.any_eq_false]
      intro r hr
      simpa using hfresh r hr
    refine ⟨⟨?_, ?_, ?_⟩, ?_⟩
    · simp only [bySymbolFrom_append, h.1, Nat.zero_add]
    · simp [List.range_succ, h.2.1]
    · simp only [List.map_append, List.map_cons, List.map_nil, List.nodup_append]
      refine ⟨h.2.2, by simp, ?_⟩
      intro x hx
      simp only [List.mem_singleton]
      obtain ⟨r, hr, hrx⟩ := List.mem_map.mp hx
      rw [← hrx]
      exact hfresh r hr
    · simp [applyBreakdownSpec, hany]
  | some j =>
    obtain ⟨hj, hkey, heq⟩ := applyBreakdown_present s b h j hl
    rw [heq]
    have hany : (s.bdStore.any (fun r => r.mapKey == b.mapKey)) = true := by
      rw [List.any_eq_true]
      exact ⟨s.bdStore.get ⟨j, hj⟩, List.get_mem s.bdStore j hj, by simpa using hkey⟩
    have hmk : (s.bdStore.getD j default).mapKey =
        (mergeBreakdown (s.bdStore.get ⟨j, hj⟩) b).mapKey := by
      have hgetD : s.bdStore.getD j default = s.bdStore.get ⟨j, hj⟩ := by
        simp [List.getD_eq_getElem?_getD, List.getElem?_eq_getElem hj]
      rw [hgetD]
      rfl
    refine ⟨⟨?_, ?_, ?_⟩, ?_⟩
    · simp only [bySymbolFrom_set s.bdStore j _ 0 hmk, h.1]
    · simp [List.length_set, h.2.1]
    · have hmap : (s.bdStore.set j (mergeBreakdown (s.bdStore.get ⟨j, hj⟩) b)).map Breakdown.mapKey =
          s.bdStore.map Breakdown.mapKey := by
        rw [List.map_set]
        apply set_get?_self
        rw [List.getElem?_map]
        have hsome : s.bdStore[j]? = some (s.bdStore.get ⟨j, hj⟩) := List.getElem?_eq_getElem hj
        rw [hsome]
        rfl
      simp only [hmap]
      exact h.2.2
    · simp only [applyBreakdownSpec, hany, if_true]
      exact (map_merge_eq_set s.bdStore b j hj hkey h.2.2).symm

/-- The bookkeeping invariant holds along any fold of `applyBreakdown`. -/
theorem BdInv_foldl (bs : List Breakdown) : ∀ s, BdInv s → BdInv (bs.foldl applyBreakdown s) := by
  induction bs with
  | nil => intro s h; exact h
  | cons b rest ih =>
    intro s h
    exact ih (applyBreakdown s b) (BdInv_applyBreakdown s b h).1

/-- The bookkeeping invariant holds for every reachable response model. -/
theorem runBreakdowns_inv (bs : List Breakdown) : BdInv (runBreakdowns bs) := by
  apply BdInv_foldl
  refine ⟨rfl, rfl, ?_⟩
  simp [emptyResponse]

/-- Claim C2: on every reachable response model, the breakdowns list has at most
one record per `(reference.uri, reference.name)` pair; an incoming breakdown
whose symbol key is already present updates the stored record in place (through
`mergeBreakdown`, which overwrites `query`/`reason`/`response` only when the
incoming field is non-empty) and does not grow the list, while a breakdown with
a new symbol key is appended. -/
theorem applyBreakdown_unique_per_symbol (bs : List Breakdown) (b : Breakdown) :
    List.Pairwise
      (fun r1 r2 => ¬(r1.reference.uri = r2.reference.uri ∧ r1.reference.name = r2.reference.name))
      (runBreakdowns bs).breakdowns ∧
    ((runBreakdowns bs).breakdowns.any (fun r => r.mapKey == b.mapKey) = true →
      (applyBreakdown (runBreakdowns bs) b).breakdowns =
        (runBreakdowns bs).breakdowns.map
          (fun r => if r.mapKey == b.mapKey then mergeBreakdown r b else r) ∧
      (applyBreakdown (runBreakdowns bs) b).breakdowns.length =
        (runBreakdowns bs).breakdowns.length) ∧
    ((runBreakdowns bs).breakdowns.any (fun r => r.mapKey == b.mapKey) = false →
      (applyBreakdown (runBreakdowns bs) b).breakdowns = (runBreakdowns bs).breakdowns ++ [b]) := by
  have hInv := runBreakdowns_inv bs
  have hbs := breakdowns_eq_store _ hInv
  obtain ⟨hInv1, hspec⟩ := BdInv_applyBreakdown (runBreakdowns bs) b hInv
  have hbs1 := breakdowns_eq_store _ hInv1
  refine ⟨?_, ?_, ?_⟩
  · rw [hbs]
    have hnd := hInv.2.2
    have hpw : List.Pairwise (fun r1 r2 => r1.mapKey ≠ r2.mapKey) (runBreakdowns bs).bdStore :=
      List.pairwise_map.mp hnd
    exact hpw.imp (fun hne hc => hne (mapKey_eq_of _ _ hc.2 hc.1))
  · intro hany
    rw [hbs] at hany
    rw [hbs1, hbs, hspec]
    simp [applyBreakdownSpec, hany]
  · intro hany
    rw [hbs] at hany
    rw [hbs1, hbs, hspec]
    simp [applyBreakdownSpec, hany]

theorem applyBreakdown_unique_per_symbol_witness :
    (applyBreakdown (runBreakdowns [breakdownEx]) breakdownEx3).breakdowns =
      (runBreakdowns [breakdownEx]).breakdowns.map
        (fun r => if r.mapKey == breakdownEx3.mapKey then mergeBreakdown r breakdownEx3 else r) ∧
    (applyBreakdown (runBreakdowns [breakdownEx]) breakdownEx2).breakdowns =
      (runBreakdowns [breakdownEx]).breakdowns ++ [breakdownEx2] :=
  ⟨((applyBreakdown_unique_per_symbol [breakdownEx] breakdownEx3).2.1 (by decide)).1,
    (applyBreakdown_unique_per_symbol [breakdownEx] breakdownEx2).2.2 (by decide)⟩

end SunnyOS
